import Mathlib

/-!
Verification of the tree-construction / physics / viewport engine of the
british-museum-data-test repository.

The development shallowly embeds the JavaScript source:

* `src/src/Node.js` (first `Node` class)            → `PNode`
* `src/unnamed/part_001` (`physics.js`)             → `updatePhysics` and friends
* `src/src/TreeGraph.js` lines 700-1109 (the active
  `React.forwardRef` component: `TREE_CONFIG`,
  `safeGetSimilarRecords`, `calculateNodesCenter`,
  `autoZoomForDepth`, `updateTreeFromHistory`)      → the `BMTree` definitions below.

Modelling conventions, used throughout:

* JS objects live in an arena: the node store is a `List PNode` and object
  references (`parentNode`, `link.source`, …) are indices into that list.
  In-place mutation becomes functional update of the list (`updAt`).
* JS numbers are modelled as exact rationals `ℚ`.  The transcendental
  library calls (`Math.sqrt`, `Math.atan2`, `Math.cos`, `Math.sin`) are
  modelled as parameters bundled in a `Prims` record, so every theorem
  quantifying over `Prims` holds whatever those library functions return;
  concrete instantiations used in witnesses agree with the real functions
  at every input actually reached by the run in question.
* `x / 0 = 0` in `ℚ`, while JS produces non-finite values.  Wherever a
  claim is about that difference (the zero-length-link claim), a second,
  refined model over `JQ := Option ℚ` is used in which `none` stands for a
  non-finite JS number (NaN or ±Infinity); see `jsLinkPhase2`.
-/

namespace BMTree

/-- A 2-D vector of rationals, modelling the JS `{x, y}` position and
velocity objects. -/
structure Vec2 where
  x : ℚ
  y : ℚ
deriving Repr, DecidableEq

/-- Model of the `Node` class of `src/src/Node.js` (the first class in the
file, the one with the database-id constructor argument, which is the one
the active `TreeGraph` component constructs).  `parentNode` is an arena
index (`none` for the root), `childNodes` a list of arena indices.  The
JS field `extends` is spelled `extent` (Lean keyword); `instanceId`
(a wall-clock/random React key, read nowhere) is omitted. -/
structure PNode where
  position : Vec2
  velocity : Vec2
  extent : ℚ
  childNodes : List Nat
  parentNode : Option Nat
  userSelected : Bool
  description : String
  image : Option String
  id : Option Nat
  depth : Nat
  resting : Bool
deriving Repr, DecidableEq

/-- Model of the link objects created by `updateTreeFromHistory`
(`{source, target, similarityScore}`): `source`/`target` are arena
indices; `initialAngle` is absent (`none` = JS `undefined`) until the
physics engine captures it. -/
structure PLink where
  source : Nat
  target : Nat
  similarityScore : ℚ
  initialAngle : Option ℚ
deriving Repr, DecidableEq

/-- Functional update of the `i`-th element of a list, modelling in-place
mutation of an arena slot.  Out-of-range indices leave the list unchanged. -/
def updAt {α : Type} : List α → Nat → (α → α) → List α
  | [], _, _ => []
  | a :: l, 0, f => f a :: l
  | a :: l, n + 1, f => a :: updAt l n f

/-- The `PHYSICS_CONFIG` constants of `physics.js`. -/
def DAMPING : ℚ := 1 / 2

/-- `COLLISION_BUFFER` of `PHYSICS_CONFIG`. -/
def COLLISION_BUFFER : ℚ := 5

/-- `RESTING_THRESHOLD` of `PHYSICS_CONFIG` (0.15). -/
def RESTING_THRESHOLD : ℚ := 15 / 100

/-- `SPRING_FORCE` of `PHYSICS_CONFIG` (0.1). -/
def SPRING_FORCE : ℚ := 1 / 10

/-- `TARGET_LINK_LENGTH` of `PHYSICS_CONFIG`. -/
def TARGET_LINK_LENGTH : ℚ := 150

/-- `ANGULAR_RESTORING_FORCE` of `PHYSICS_CONFIG` (0.01). -/
def ANGULAR_RESTORING_FORCE : ℚ := 1 / 100

/-- `WIND_DAMPING_FACTOR` of `PHYSICS_CONFIG` (0.2). -/
def WIND_DAMPING_FACTOR : ℚ := 1 / 5

/-- The math-library calls made by `physics.js`, abstracted as parameters.
`sqrt` models `Math.sqrt`; `atan2 dy dx` models `Math.atan2(dy, dx)`;
`cos`/`sin` model `Math.cos`/`Math.sin` applied to an angle; `cosPerp a`
and `sinPerp a` model `Math.cos(a + Math.PI / 2)` and
`Math.sin(a + Math.PI / 2)` (the shifted angle is irrational, so the
composite is taken as the primitive). -/
structure Prims where
  sqrt : ℚ → ℚ
  atan2 : ℚ → ℚ → ℚ
  cos : ℚ → ℚ
  sin : ℚ → ℚ
  cosPerp : ℚ → ℚ
  sinPerp : ℚ → ℚ

/-- Lines 22-35 of `physics.js`: integrate position, damp velocity and
recompute the `resting` flag of one (non-root) node. -/
def integrateNode (P : Prims) (n : PNode) : PNode :=
  let px := n.position.x + n.velocity.x
  let py := n.position.y + n.velocity.y
  let vx := n.velocity.x * DAMPING
  let vy := n.velocity.y * DAMPING
  let speed := P.sqrt (vx ^ 2 + vy ^ 2)
  { n with
    position := ⟨px, py⟩
    velocity := ⟨vx, vy⟩
    resting := decide (speed < RESTING_THRESHOLD) }

/-- Lines 44-64 of `physics.js`: one iteration of the inner collision
loop, between the node at `idx` and the node at `j`. -/
def resolvePair (P : Prims) (st : List PNode) (idx j : Nat) : List PNode :=
  match st.get? idx, st.get? j with
  | some a, some b =>
    let dx := b.position.x - a.position.x
    let dy := b.position.y - a.position.y
    let distance := P.sqrt (dx * dx + dy * dy)
    let minDistance := a.extent + b.extent + COLLISION_BUFFER
    if distance < minDistance then
      let angle := P.atan2 dy dx
      let overlap := minDistance - distance
      let resolveX := (overlap / 2) * P.cos angle
      let resolveY := (overlap / 2) * P.sin angle
      updAt
        (updAt st idx fun n =>
          { n with position := ⟨n.position.x - resolveX, n.position.y - resolveY⟩ })
        j fun n =>
          { n with position := ⟨n.position.x + resolveX, n.position.y + resolveY⟩ }
    else st
  | _, _ => st

/-- Lines 43-65 of `physics.js`: the collision loop of the node at `idx`
against every node with a larger index. -/
def collideFrom (P : Prims) (st : List PNode) (idx : Nat) : List PNode :=
  (List.range' (idx + 1) (st.length - (idx + 1))).foldl
    (fun s j => resolvePair P s idx j) st

/-- Lines 19-66 of `physics.js`: the whole Phase-1 body for the node at
`idx`, threading the `allResting` accumulator.  The root
(`parentNode === null`) is skipped entirely, collision loop included. -/
def phase1Node (P : Prims) (st : List PNode) (idx : Nat) (allR : Bool) :
    List PNode × Bool :=
  match st.get? idx with
  | none => (st, allR)
  | some n =>
    if n.parentNode = none then (st, allR)
    else
      let n1 := integrateNode P n
      let st1 := updAt st idx fun _ => n1
      (collideFrom P st1 idx, allR && n1.resting)

/-- Phase 1 of `updatePhysics`: `nodes.forEach` over the whole store,
starting from `allResting = true`. -/
def phase1 (P : Prims) (st : List PNode) : List PNode × Bool :=
  (List.range st.length).foldl
    (fun p idx => phase1Node P p.1 idx p.2) (st, true)

/-- In-place mutation of the velocity of the node in arena slot `i`
(`node.velocity.x = …; node.velocity.y = …`). -/
def mapVel (st : List PNode) (i : Nat) (f : Vec2 → Vec2) : List PNode :=
  updAt st i fun n => { n with velocity := f n.velocity }

/-- Lines 70-127 of `physics.js`: the Phase-2 body for one link at
position `index` of a link list of length `numLinks`: spring force, lazy
angle capture (note the JS truthiness test `!link.initialAngle`, which is
true both for `undefined` and for a stored angle of `0`), angular
restoring force, wind, and extra wind damping.  Velocity updates go
through the arena, which reproduces the JS aliasing of
`link.source`/`link.target` into the node array. -/
def linkPhase2 (P : Prims) (wind : ℚ × ℚ) (numLinks : Nat) (st : List PNode)
    (lk : PLink) (index : Nat) : List PNode × PLink :=
  match st.get? lk.source, st.get? lk.target with
  | some source, some target =>
    let dx := target.position.x - source.position.x
    let dy := target.position.y - source.position.y
    let distance := P.sqrt (dx * dx + dy * dy)
    let diff := distance - TARGET_LINK_LENGTH
    let springForce := SPRING_FORCE * (8 / 10 * diff)
    let fx := springForce * dx / distance
    let fy := springForce * dy / distance
    let st1 := mapVel st lk.target fun v => ⟨v.x - fx, v.y - fy⟩
    let st2 := mapVel st1 lk.source fun v => ⟨v.x + fx, v.y + fy⟩
    let lk1 :=
      if (lk.initialAngle = none ∨ lk.initialAngle = some 0) ∧
          target.resting ∧ source.resting then
        { lk with initialAngle := some (P.atan2 dy dx) }
      else lk
    let st3 :=
      match lk1.initialAngle with
      | some initAngle =>
        let currentAngle := P.atan2 dy dx
        let angleDiff := currentAngle - initAngle
        let restoringForce :=
          max (min (-ANGULAR_RESTORING_FORCE * angleDiff) (1 / 10)) (-(1 / 10))
        let angleForceX := restoringForce * P.cosPerp currentAngle
        let angleForceY := restoringForce * P.sinPerp currentAngle
        mapVel
          (mapVel st2 lk.target fun v => ⟨v.x + angleForceX, v.y + angleForceY⟩)
          lk.source fun v => ⟨v.x - angleForceX, v.y - angleForceY⟩
      | none => st2
    let windScaleFactor := (((index : ℚ) + 1) ^ 3) / (numLinks : ℚ)
    let st4 := mapVel st3 lk.target fun v =>
      ⟨v.x + wind.1 * windScaleFactor, v.y + -wind.2⟩
    let st5 := mapVel st4 lk.source fun v =>
      ⟨v.x + wind.1 * windScaleFactor, v.y + -wind.2⟩
    let st6 := mapVel st5 lk.target fun v =>
      ⟨v.x * (1 - WIND_DAMPING_FACTOR), v.y * (1 - WIND_DAMPING_FACTOR)⟩
    let st7 := mapVel st6 lk.source fun v =>
      ⟨v.x * (1 - WIND_DAMPING_FACTOR), v.y * (1 - WIND_DAMPING_FACTOR)⟩
    (st7, lk1)
  | _, _ => (st, lk)

/-- Phase 2 of `updatePhysics`: `links.forEach` with its index, threading
the node store and rebuilding the link list (whose `initialAngle` fields
may have been written). -/
def phase2 (P : Prims) (wind : ℚ × ℚ) (st : List PNode) (links : List PLink) :
    List PNode × List PLink :=
  let numLinks := links.length
  let r := links.foldl
    (fun (acc : List PNode × List PLink × Nat) lk =>
      let s := linkPhase2 P wind numLinks acc.1 lk acc.2.2
      (s.1, acc.2.1 ++ [s.2], acc.2.2 + 1))
    (st, [], 0)
  (r.1, r.2.1)

/-- `updatePhysics(nodes, links, windForce)` of `physics.js`: Phase 1
always runs; Phase 2 runs only when the `allResting` accumulator survived
Phase 1. -/
def updatePhysics (P : Prims) (st : List PNode) (links : List PLink)
    (wind : ℚ × ℚ) : List PNode × List PLink :=
  if (phase1 P st).2 then phase2 P wind (phase1 P st).1 links
  else ((phase1 P st).1, links)

/-! Tree-builder embedding (`src/src/TreeGraph.js`, the active component,
lines 700-1109). -/

/-- The `TREE_CONFIG` zoom/layout constants of `TreeGraph.js`. -/
def MIN_ZOOM : ℚ := 1 / 5

/-- `TREE_CONFIG.MAX_ZOOM`. -/
def MAX_ZOOM : ℚ := 2

/-- `TREE_CONFIG.DEFAULT_ZOOM`. -/
def DEFAULT_ZOOM : ℚ := 1

/-- `TREE_CONFIG.EDGE_LENGTH`. -/
def EDGE_LENGTH : ℚ := 200

/-- `TREE_CONFIG.CHILD_SPREAD`. -/
def CHILD_SPREAD : ℚ := 50

/-- `TREE_CONFIG.CHILD_OFFSET_Y`. -/
def CHILD_OFFSET_Y : ℚ := -50

/-- `TREE_CONFIG.PADDING`. -/
def PADDING : ℚ := 100

/-- A visit-history / neighbor record as consumed by
`updateTreeFromHistory`: `{id, text_for_embedding, Image,
similarityScore}`.  Ids are modelled as natural numbers (`none` = absent). -/
structure SimRec where
  id : Option Nat
  text : String
  image : Option String
  similarityScore : Option ℚ
deriving Repr, DecidableEq

/-- JS `x || d` for a possibly-absent number `x` (used for
`similarObject.similarityScore || 0`): an absent or zero value falls back
to the default. -/
def jsOrQ (x : Option ℚ) (d : ℚ) : ℚ :=
  match x with
  | some q => if q = 0 then d else q
  | none => d

/-- Index-returning version of JS `Array.prototype.find`: the arena index
of the first element satisfying the predicate. -/
def jsFindIdx {α : Type} (p : α → Bool) : List α → Option Nat
  | [] => none
  | a :: l => if p a then some 0 else (jsFindIdx p l).map (· + 1)

/-- The similarity map `similarRecords`, modelled as an association list
from record id to neighbor list (`similarRecords[id]`; a JS object keyed
by id). -/
def lookupSim (m : List (Nat × List SimRec)) (k : Nat) : Option (List SimRec) :=
  (m.find? fun e => e.1 == k).map (·.2)

/-- `safeGetSimilarRecords` of `TreeGraph.js` (lines 742-745): `null`
(here `none`) when the target's id is JS-falsy (absent or `0`) or the map
has no entry; an entry that is present is returned even when it is the
empty list (a JS empty array is truthy). -/
def safeGetSimilarRecords (target : SimRec) (m : List (Nat × List SimRec)) :
    Option (List SimRec) :=
  match target.id with
  | none => none
  | some k => if k = 0 then none else lookupSim m k

/-- The store owned by the `TreeGraph` component: the node arena
(`nodesRef.current`) and the link list (`links`). -/
structure TreeState where
  nodes : List PNode
  links : List PLink
deriving Repr, DecidableEq

/-- A freshly constructed `Node` (the JS constructor with all defaults
filled in): `extends = 30`, no children, not selected, not resting, depth
derived from the parent. -/
def mkNode (pos : Vec2) (desc : String) (image : Option String)
    (parent : Option Nat) (parentDepth : Nat) (id : Option Nat) : PNode :=
  { position := pos
    velocity := ⟨0, 0⟩
    extent := 30
    childNodes := []
    parentNode := parent
    userSelected := false
    description := desc
    image := image
    id := id
    depth := match parent with | some _ => parentDepth + 1 | none => 0
    resting := false }

/-- Lines 1066-1104 of `TreeGraph.js`: the `forEach` over the (already
batch-filtered) neighbor list.  `i` is the running `forEach` index, `K`
the length of the filtered list (both used in the sibling-spread
position), `parentIdx` the arena index of the resolved parent.  Each kept
record becomes a child node appended to the arena, a link, and an entry
in `newlyCreatedNodes`; a record whose description equals the parent's is
skipped. -/
def attachSimilar (parentIdx K : Nat) :
    Nat → List SimRec → List PNode → List PLink → List Nat →
    List PNode × List PLink × List Nat
  | _, [], nodes, links, newly => (nodes, links, newly)
  | i, s :: rest, nodes, links, newly =>
    match nodes.get? parentIdx with
    | none => attachSimilar parentIdx K (i + 1) rest nodes links newly
    | some parent =>
      if parent.description = s.text then
        attachSimilar parentIdx K (i + 1) rest nodes links newly
      else
        let childPos : Vec2 :=
          ⟨parent.position.x + ((i : ℚ) - ((K / 2 : Nat) : ℚ)) * CHILD_SPREAD,
           parent.position.y + CHILD_OFFSET_Y⟩
        let childIdx := nodes.length
        let child := mkNode childPos s.text s.image (some parentIdx) parent.depth s.id
        let nodes1 :=
          (updAt nodes parentIdx fun p =>
            { p with childNodes := p.childNodes ++ [childIdx] }) ++ [child]
        let link : PLink :=
          { source := parentIdx
            target := childIdx
            similarityScore := jsOrQ s.similarityScore 0
            initialAngle := none }
        attachSimilar parentIdx K (i + 1) rest nodes1 (links ++ [link]) (newly ++ [childIdx])

/-- Lines 1041-1053 of `TreeGraph.js`: resolve the record whose neighbor
list will be attached — the history record matching the active node's
description, with a fallback to the last history record. -/
def resolveTarget (history : List SimRec) (h0 : SimRec) (active : Option SimRec) :
    SimRec :=
  match active with
  | some a =>
    match history.find? fun item => item.text == a.text with
    | some t => t
    | none => history.getLast?.getD h0
  | none => history.getLast?.getD h0

/-- `updateTreeFromHistory(searchHistory, similarRecords, activeNode)` of
`TreeGraph.js` (lines 1003-1109).  Returns the new store and the list of
newly created arena indices (`newlyCreatedNodes`); the early return on an
empty history (JS `return undefined`) is modelled as no new nodes. -/
def updateTreeFromHistory (st : TreeState) (history : List SimRec)
    (simRecords : List (Nat × List SimRec)) (active : Option SimRec) :
    TreeState × List Nat :=
  match history with
  | [] => (st, [])
  | h0 :: rest =>
    let rootFound := jsFindIdx (fun n => n.description == h0.text) st.nodes
    let nodes1 :=
      match rootFound with
      | some _ => st.nodes
      | none => st.nodes ++ [mkNode ⟨0, 0⟩ h0.text h0.image none 0 h0.id]
    let rootIdx :=
      match rootFound with
      | some i => i
      | none => st.nodes.length
    let newly1 : List Nat :=
      match rootFound with
      | some _ => []
      | none => [st.nodes.length]
    let parentIdx :=
      match active with
      | some a =>
        match jsFindIdx (fun n => n.description == a.text) nodes1 with
        | some j => j
        | none => rootIdx
      | none => rootIdx
    let targetObject := resolveTarget (h0 :: rest) h0 active
    match safeGetSimilarRecords targetObject simRecords with
    | none => ({ nodes := nodes1, links := st.links }, newly1)
    | some lst =>
      let filtered := lst.filter fun s =>
        !(nodes1.any fun n => n.description == s.text)
      let r := attachSimilar parentIdx filtered.length 0 filtered nodes1 st.links newly1
      ({ nodes := r.1, links := r.2.1 }, r.2.2)

/-- `calculateNodesCenter(nodes)` of `TreeGraph.js` (lines 833-871): the
representative center of a node list (also the center used by
`smoothMoveToNode`, which wraps a single node into a one-element list and
delegates here). -/
def calculateNodesCenter (nodes : List PNode) : Option Vec2 :=
  match nodes with
  | [] => none
  | [n] => some n.position
  | _ =>
    if nodes.length % 2 = 1 then
      (nodes.get? (nodes.length / 2)).map (·.position)
    else
      match nodes.get? (nodes.length / 2 - 1), nodes.get? (nodes.length / 2) with
      | some n1, some n2 =>
        some ⟨(n1.position.x + n2.position.x) / 2, (n1.position.y + n2.position.y) / 2⟩
      | _, _ => none

/-- The scale computed by `autoZoomForDepth(newMaxDepth)` of
`TreeGraph.js` (lines 946-968), as a function of the store's node count,
the measured SVG height and the depth argument.  A store with exactly one
node gets `DEFAULT_ZOOM`; otherwise the zoom-to-fit value is clamped into
`[MIN_ZOOM, MAX_ZOOM]`.  When `newMaxDepth * EDGE_LENGTH = 0` the JS
division produces `±Infinity` (clamped to `MAX_ZOOM`/`MIN_ZOOM`) or, for
a `0/0`, `NaN` (which `Math.min`/`Math.max` propagate); those three
non-rational cases are spelled out here rather than inherited from the
`ℚ` junk value of division by zero. -/
def autoZoomScale (nodeCount : Nat) (svgHeight : ℚ) (newMaxDepth : ℚ) : Option ℚ :=
  if nodeCount = 1 then some DEFAULT_ZOOM
  else
    let numerator := svgHeight - PADDING * 2
    let estimatedTreeHeight := newMaxDepth * EDGE_LENGTH
    if estimatedTreeHeight = 0 then
      if 0 < numerator then some MAX_ZOOM
      else if numerator < 0 then some MIN_ZOOM
      else none
    else some (max MIN_ZOOM (min MAX_ZOOM (numerator / estimatedTreeHeight)))

/-! Concrete instantiations of the math-library parameters, used by the
closed (counter)example runs.  Each is exact on every input the run in
question actually reaches; this is checked in the comments accompanying
the runs. -/

/-- Fuel-driven bisection for the integer square root (structural
recursion, so that closed runs evaluate): maintains `lo² ≤ n` and
narrows `[lo, hi]` until it collapses. -/
def natSqrtGo : Nat → Nat → Nat → Nat → Nat
  | 0, lo, _, _ => lo
  | fuel + 1, lo, hi, n =>
    if hi ≤ lo then lo
    else
      let mid := (lo + hi + 1) / 2
      if mid * mid ≤ n then natSqrtGo fuel mid hi n
      else natSqrtGo fuel lo (mid - 1) n

/-- Integer square root (floor), by bisection. -/
def natSqrtB (n : Nat) : Nat := natSqrtGo (n + 2) 0 n n

/-- A computable stand-in for `Math.sqrt`: exact on every rational whose
numerator and denominator are perfect squares (in particular on `0`, on
squares of naturals, and on squares of rationals), an unspecified
rational otherwise.  Every concrete run below only branches on values
where this function is exact or where both the true square root and this
value fall on the same side of the comparison. -/
def ratSqrt (q : ℚ) : ℚ := ((natSqrtB q.num.toNat : ℚ)) / (natSqrtB q.den : ℚ)

/-- A computable stand-in for `Math.atan2 dy dx`: it returns `0` exactly
on the zero set of the real `atan2` (`dy = 0` and `dx ≥ 0`, including
`atan2(0,0) = 0` as in JS) and a nonzero value elsewhere, mirroring that
the real `atan2` is nonzero there.  The nonzero value `1` is a stand-in:
the runs below never branch on (or feed back) the magnitude of a nonzero
angle. -/
def ratAtan2 (dy dx : ℚ) : ℚ := if dy = 0 ∧ 0 ≤ dx then 0 else 1

/-- A concrete `Prims` bundle for the closed runs: `cos`/`sin` and their
`+ π/2` shifts are exact at angle `0` (`cos 0 = 1`, `sin 0 = 0`,
`cos (π/2) = 0`, `sin (π/2) = 1`), which is the only angle at which the
runs below evaluate them. -/
def P0 : Prims :=
  { sqrt := ratSqrt
    atan2 := ratAtan2
    cos := fun a => if a = 0 then 1 else 0
    sin := fun _ => 0
    cosPerp := fun _ => 0
    sinPerp := fun a => if a = 0 then 1 else 0 }

/-! A refined number model for the division-by-zero behavior of the
Phase-2 spring computation.  `JQ` is a JS number: `some q` is a finite
value of exact magnitude `q`; `none` is a non-finite value (NaN or
±Infinity).  The operations below agree with IEEE/JS arithmetic on this
abstraction for the operations `physics.js` performs: sums, differences
and products of finite values are finite; a quotient with zero
denominator (`0/0` is NaN, `x/0` is ±Infinity) or any operation with a
non-finite operand is non-finite (no operation in this code path maps a
non-finite operand back to a finite value); `Math.min`/`Math.max`
propagate NaN. -/

/-- A JS number: `some q` finite with value `q`, `none` non-finite. -/
abbrev JQ : Type := Option ℚ

/-- Finite literal embedding. -/
def jfin (q : ℚ) : JQ := some q

/-- JS addition on the finite/non-finite abstraction. -/
def jadd : JQ → JQ → JQ
  | some a, some b => some (a + b)
  | _, _ => none

/-- JS subtraction on the finite/non-finite abstraction. -/
def jsub : JQ → JQ → JQ
  | some a, some b => some (a - b)
  | _, _ => none

/-- JS multiplication on the finite/non-finite abstraction. -/
def jmul : JQ → JQ → JQ
  | some a, some b => some (a * b)
  | _, _ => none

/-- JS division: a zero denominator yields a non-finite value (NaN for
`0/0`, ±Infinity otherwise), as does any non-finite operand. -/
def jdiv : JQ → JQ → JQ
  | some a, some b => if b = 0 then none else some (a / b)
  | _, _ => none

/-- JS `Math.min` (NaN-propagating). -/
def jmin : JQ → JQ → JQ
  | some a, some b => some (min a b)
  | _, _ => none

/-- JS `Math.max` (NaN-propagating). -/
def jmax : JQ → JQ → JQ
  | some a, some b => some (max a b)
  | _, _ => none

/-- JS unary negation. -/
def jneg : JQ → JQ
  | some a => some (-a)
  | none => none

/-- A node's physics-relevant state in the refined model: position and
velocity components as JS numbers, plus the `resting` flag. -/
structure JsPNode where
  px : JQ
  py : JQ
  vx : JQ
  vy : JQ
  resting : Bool
deriving DecidableEq

/-- The math-library parameters of the refined model.  `sqrt` models
`Math.sqrt` on finite nonnegative arguments (negative arguments give
NaN); `atan2`, `cosPerp`, `sinPerp` are as in `Prims`, lifted to JS
numbers. -/
structure JsPrims where
  sqrt : ℚ → ℚ
  atan2 : JQ → JQ → JQ
  cosPerp : JQ → JQ
  sinPerp : JQ → JQ

/-- `Math.sqrt` lifted to JS numbers: NaN on negative or non-finite input. -/
def jsqrt (A : JsPrims) : JQ → JQ
  | some q => if q < 0 then none else some (A.sqrt q)
  | none => none

/-- Lines 70-126 of `physics.js` for one link, in the refined
(non-finite-tracking) number model: spring force, angle capture
(JS-truthiness test `!link.initialAngle`, true for `undefined`, `0` and
`NaN`), angular restoring force, wind, and wind damping, for a link
between two distinct node objects `source` and `target` whose
`initialAngle` field is `angle`.  Returns the updated source, target and
`initialAngle`. -/
def jsLinkPhase2 (A : JsPrims) (wind : JQ × JQ) (numLinks : Nat) (index : Nat)
    (source target : JsPNode) (angle : Option JQ) :
    JsPNode × JsPNode × Option JQ :=
  let dx := jsub target.px source.px
  let dy := jsub target.py source.py
  let distance := jsqrt A (jadd (jmul dx dx) (jmul dy dy))
  let diff := jsub distance (jfin TARGET_LINK_LENGTH)
  let springForce := jmul (jfin SPRING_FORCE) (jmul (jfin (8 / 10)) diff)
  let fx := jdiv (jmul springForce dx) distance
  let fy := jdiv (jmul springForce dy) distance
  let target1 := { target with vx := jsub target.vx fx, vy := jsub target.vy fy }
  let source1 := { source with vx := jadd source.vx fx, vy := jadd source.vy fy }
  let angleFalsy :=
    match angle with
    | none => true
    | some none => true
    | some (some q) => decide (q = 0)
  let angle1 :=
    if angleFalsy && target.resting && source.resting then some (A.atan2 dy dx)
    else angle
  let (target2, source2) :=
    match angle1 with
    | some initAngle =>
      let currentAngle := A.atan2 dy dx
      let angleDiff := jsub currentAngle initAngle
      let restoringForce :=
        jmax (jmin (jmul (jfin (-ANGULAR_RESTORING_FORCE)) angleDiff) (jfin (1 / 10)))
          (jfin (-(1 / 10)))
      let angleForceX := jmul restoringForce (A.cosPerp currentAngle)
      let angleForceY := jmul restoringForce (A.sinPerp currentAngle)
      ({ target1 with vx := jadd target1.vx angleForceX, vy := jadd target1.vy angleForceY },
       { source1 with vx := jsub source1.vx angleForceX, vy := jsub source1.vy angleForceY })
    | none => (target1, source1)
  let windScaleFactor := jdiv (jfin (((index : ℚ) + 1) ^ 3)) (jfin (numLinks : ℚ))
  let target3 := { target2 with vx := jadd target2.vx (jmul wind.1 windScaleFactor),
                                vy := jadd target2.vy (jneg wind.2) }
  let source3 := { source2 with vx := jadd source2.vx (jmul wind.1 windScaleFactor),
                                vy := jadd source2.vy (jneg wind.2) }
  let target4 := { target3 with vx := jmul target3.vx (jfin (1 - WIND_DAMPING_FACTOR)),
                                vy := jmul target3.vy (jfin (1 - WIND_DAMPING_FACTOR)) }
  let source4 := { source3 with vx := jmul source3.vx (jfin (1 - WIND_DAMPING_FACTOR)),
                                vy := jmul source3.vy (jfin (1 - WIND_DAMPING_FACTOR)) }
  (source4, target4, angle1)

/-- A concrete `JsPrims` bundle for closed runs of the refined model;
`atan2` is exact on its real zero set as in `ratAtan2`. -/
def JP0 : JsPrims :=
  { sqrt := ratSqrt
    atan2 := fun dy dx =>
      match dy, dx with
      | some a, some b => some (ratAtan2 a b)
      | _, _ => none
    cosPerp := fun _ => some 0
    sinPerp := fun a => if a = some 0 then some 1 else some 0 }

/-- The descriptions of a node store, in arena order. -/
def descs (l : List PNode) : List String := l.map (·.description)

/-! Concrete stores, records and primitive bundles used by the closed
runs below. -/

/-- A store node with the given position, description and parent (no
image, no id), as the tree builder constructs them. -/
def nodeAt (pos : Vec2) (desc : String) (parent : Option Nat) (pdepth : Nat) : PNode :=
  mkNode pos desc none parent pdepth none

/-- A root node at the origin, as `updateTreeFromHistory` creates it. -/
def rootNode0 : PNode := nodeAt ⟨0, 0⟩ "root" none 0

/-- History record with description `A`. -/
def recA : SimRec := ⟨some 1, "A", none, none⟩

/-- Neighbor record with description `B`. -/
def recB : SimRec := ⟨some 2, "B", none, none⟩

/-- A second, distinct neighbor record that shares description `B` with
`recB`. -/
def recB2 : SimRec := ⟨some 3, "B", none, some (1 / 2)⟩

/-- Store of the collision counterexample, part 1: a root (first element)
and a child at the same position. -/
def c4store1 : List PNode := [rootNode0, nodeAt ⟨0, 0⟩ "A" (some 0) 0]

/-- Store of the collision counterexample, part 2: a far-away root and
three children on the x-axis at 0, 65 and 66; resolving the (B, C)
overlap pushes B back on top of A after the (A, B) pair was already
checked. -/
def c4store2 : List PNode :=
  [nodeAt ⟨1000, 1000⟩ "root" none 0, nodeAt ⟨0, 0⟩ "A" (some 0) 0,
   nodeAt ⟨65, 0⟩ "B" (some 0) 0, nodeAt ⟨66, 0⟩ "C" (some 0) 0]

/-- Store of the angle-recapture run: root, child `A` at distance 150
(the spring rest length) and grandchild `B` at a further 150,
horizontally aligned so that the captured angle is exactly `0`. -/
def c6nodes : List PNode :=
  [rootNode0, nodeAt ⟨150, 0⟩ "A" (some 0) 0, nodeAt ⟨300, 0⟩ "B" (some 1) 1]

/-- Links of the angle-recapture run (root to A, A to B). -/
def c6links : List PLink := [⟨0, 1, 0, none⟩, ⟨1, 2, 0, none⟩]

/-- First tick of the angle-recapture run: all nodes start resting, a
vertical wind of `0.1` is injected, and link `A → B` captures
`atan2(0, 150) = 0`.  The only `Math.sqrt` arguments reached are `0`,
`150²` and `0.072² -` style perfect squares, on which `ratSqrt` is
exact; no collision branch is entered (all inter-node distances evaluate
far above `65`, under `ratSqrt` and under the true square root alike). -/
def c6tick1 : List PNode × List PLink := updatePhysics P0 c6nodes c6links (0, -(1 / 10))

/-- Second tick of the angle-recapture run, with the wind switched off:
the wind-driven velocities have decayed below the resting threshold, so
Phase 2 runs again and the truthiness test `!link.initialAngle` sees the
stored `0` as absent and recaptures the (now vertically displaced)
angle. -/
def c6tick2 : List PNode × List PLink := updatePhysics P0 c6tick1.1 c6tick1.2 (0, 0)

/-- Primitive bundle of the pair-resolution witness: exact for the
3-4-5 geometry it is applied to (`cos (atan2 4 3) = 3/5`,
`sin (atan2 4 3) = 4/5`). -/
def PW4 : Prims :=
  { sqrt := ratSqrt, atan2 := fun _ _ => 0, cos := fun _ => 3 / 5, sin := fun _ => 4 / 5,
    cosPerp := fun _ => 0, sinPerp := fun _ => 0 }

/-- Store of the pair-resolution witness: two overlapping nodes at
distance 5 (radii 30 + 30, buffer 5). -/
def stW4 : List PNode := [nodeAt ⟨0, 0⟩ "a" none 0, nodeAt ⟨3, 4⟩ "b" none 0]

/-- A refined-model node used by the zero-length-link runs: finite
position `(10, 20)`, zero velocity, resting. -/
def c5node : JsPNode := ⟨some 10, some 20, some 0, some 0, true⟩

/-- Store of the gate counterexample: a root (resting flag `false` from
the `Node` constructor, never updated because Phase 1 skips the root)
and one stationary child at distance 100. -/
def c3store : List PNode := [rootNode0, nodeAt ⟨100, 0⟩ "A" (some 0) 0]

/-- A child moving fast enough (damped speed 5) to keep the Phase-2 gate
closed. -/
def fastChild : PNode := { nodeAt ⟨100, 0⟩ "A" (some 0) 0 with velocity := ⟨10, 0⟩ }

/-- Store of the second gate counterexample: the root itself carries a
large velocity (reachable, since Phase 2 adds spring/wind velocity to a
link's root endpoint and the root is never damped or integrated), with a
stationary child. -/
def c3storeFast : List PNode :=
  [{ rootNode0 with velocity := ⟨100, 0⟩ }, nodeAt ⟨100, 0⟩ "A" (some 0) 0]

/-!  Theorems.  First, the bookkeeping lemmas for `updAt` and the model
components, then the ten claims. -/

theorem updAt_nil {α : Type} (n : Nat) (f : α → α) : updAt [] n f = [] := rfl

theorem updAt_cons_zero {α : Type} (a : α) (l : List α) (f : α → α) :
    updAt (a :: l) 0 f = f a :: l := rfl

theorem updAt_cons_succ {α : Type} (a : α) (l : List α) (n : Nat) (f : α → α) :
    updAt (a :: l) (n + 1) f = a :: updAt l n f := rfl

theorem length_updAt {α : Type} (l : List α) (n : Nat) (f : α → α) :
    (updAt l n f).length = l.length := by
  induction l generalizing n with
  | nil => rfl
  | cons a l ih =>
    cases n with
    | zero => rfl
    | succ n => simp [updAt, ih]

theorem get?_updAt_self {α : Type} (l : List α) (n : Nat) (f : α → α) :
    (updAt l n f).get? n = (l.get? n).map f := by
  induction l generalizing n with
  | nil => simp [updAt]
  | cons a l ih =>
    cases n with
    | zero => simp [updAt]
    | succ n => simpa [updAt] using ih n

theorem get?_updAt_ne {α : Type} (l : List α) (n m : Nat) (f : α → α) (h : m ≠ n) :
    (updAt l n f).get? m = l.get? m := by
  induction l generalizing n m with
  | nil => simp [updAt]
  | cons a l ih =>
    cases n with
    | zero =>
      cases m with
      | zero => exact absurd rfl h
      | succ m => simp [updAt]
    | succ n =>
      cases m with
      | zero => simp [updAt]
      | succ m => simpa [updAt] using ih n m (fun hmn => h (by omega))

theorem get?_updAt_map {α β : Type} (l : List α) (n m : Nat) (f : α → α) (g : α → β)
    (hf : ∀ a, g (f a) = g a) :
    ((updAt l n f).get? m).map g = (l.get? m).map g := by
  by_cases h : m = n
  · subst h
    rw [get?_updAt_self]
    cases l.get? m with
    | none => rfl
    | some a => simp [hf]
  · rw [get?_updAt_ne _ _ _ _ h]

theorem jadd_none_left (x : JQ) : jadd none x = none := rfl

theorem jadd_none_right (x : JQ) : jadd x none = none := by cases x <;> rfl

theorem jsub_none_left (x : JQ) : jsub none x = none := rfl

theorem jsub_none_right (x : JQ) : jsub x none = none := by cases x <;> rfl

theorem jmul_none_left (x : JQ) : jmul none x = none := rfl

theorem jmul_none_right (x : JQ) : jmul x none = none := by cases x <;> rfl

theorem jfin_def (q : ℚ) : jfin q = some q := rfl

theorem jsub_some_some (a b : ℚ) : jsub (some a) (some b) = some (a - b) := rfl

theorem jadd_some_some (a b : ℚ) : jadd (some a) (some b) = some (a + b) := rfl

theorem jmul_some_some (a b : ℚ) : jmul (some a) (some b) = some (a * b) := rfl

theorem jdiv_some_zero (a : ℚ) : jdiv (some a) (some 0) = none := by simp [jdiv]

theorem jsqrt_some_zero (A : JsPrims) (h : A.sqrt 0 = 0) : jsqrt A (some 0) = some 0 := by
  simp [jsqrt, h]

theorem jsFindIdx_eq_none {α : Type} (p : α → Bool) (l : List α)
    (h : jsFindIdx p l = none) : ∀ a ∈ l, p a = false := by
  induction l with
  | nil => intro a ha; cases ha
  | cons b l ih =>
    intro a ha
    by_cases hb : p b
    · simp [jsFindIdx, hb] at h
    · simp [jsFindIdx, hb] at h
      cases ha with
      | head => simpa using hb
      | tail _ ha => exact ih h a ha

theorem jsFindIdx_eq_some {α : Type} (p : α → Bool) (l : List α) (i : Nat)
    (h : jsFindIdx p l = some i) : ∃ a, l.get? i = some a ∧ p a = true := by
  induction l generalizing i with
  | nil => cases h
  | cons b l ih =>
    by_cases hb : p b
    · simp [jsFindIdx, hb] at h
      subst h
      exact ⟨b, rfl, by simpa using hb⟩
    · simp [jsFindIdx, hb] at h
      rcases h with ⟨j, hj, rfl⟩
      rcases ih j hj with ⟨a, ha, hpa⟩
      exact ⟨a, by simpa using ha, hpa⟩

theorem jsFindIdx_lt_length {α : Type} (p : α → Bool) (l : List α) (i : Nat)
    (h : jsFindIdx p l = some i) : i < l.length := by
  rcases jsFindIdx_eq_some p l i h with ⟨a, ha, -⟩
  exact List.get?_eq_some.mp ha |>.1

theorem jsFindIdx_isSome {α : Type} (p : α → Bool) (l : List α) (a : α)
    (ha : a ∈ l) (hpa : p a = true) : jsFindIdx p l ≠ none := by
  intro h
  have := jsFindIdx_eq_none p l h a ha
  rw [hpa] at this
  cases this

theorem descs_append (l1 l2 : List PNode) : descs (l1 ++ l2) = descs l1 ++ descs l2 :=
  List.map_append _ _ _

theorem descs_updAt (l : List PNode) (n : Nat) (f : PNode → PNode)
    (hf : ∀ a, (f a).description = a.description) :
    descs (updAt l n f) = descs l := by
  induction l generalizing n with
  | nil => rfl
  | cons a l ih =>
    cases n with
    | zero => simp [updAt, descs, hf]
    | succ n =>
      simp only [updAt, descs, List.map_cons] at ih ⊢
      rw [ih]

theorem mem_descs_iff (x : String) (l : List PNode) :
    x ∈ descs l ↔ ∃ n ∈ l, n.description = x := by
  simp [descs, List.mem_map, eq_comm]

theorem descs_updAt_children (nodes : List PNode) (p c : Nat) :
    descs (updAt nodes p fun n => { n with childNodes := n.childNodes ++ [c] }) =
      descs nodes :=
  descs_updAt _ _ _ (fun _ => rfl)

theorem resolvePair_length (P : Prims) (st : List PNode) (idx j : Nat) :
    (resolvePair P st idx j).length = st.length := by
  unfold resolvePair
  cases st.get? idx <;> cases st.get? j <;> simp only
  split <;> simp [length_updAt]

theorem resolvePair_map {β : Type} (P : Prims) (st : List PNode) (idx j m : Nat)
    (g : PNode → β) (hg : ∀ (n : PNode) (v : Vec2), g { n with position := v } = g n) :
    ((resolvePair P st idx j).get? m).map g = (st.get? m).map g := by
  unfold resolvePair
  cases st.get? idx <;> cases st.get? j <;> simp only
  split
  · rw [get?_updAt_map _ _ _ _ _ (fun n => hg n _),
      get?_updAt_map _ _ _ _ _ (fun n => hg n _)]
  · rfl

theorem resolvePair_get?_ne (P : Prims) (st : List PNode) (idx j m : Nat)
    (h1 : m ≠ idx) (h2 : m ≠ j) :
    (resolvePair P st idx j).get? m = st.get? m := by
  unfold resolvePair
  cases st.get? idx <;> cases st.get? j <;> simp only
  split
  · rw [get?_updAt_ne _ _ _ _ h2, get?_updAt_ne _ _ _ _ h1]
  · rfl

theorem foldl_resolvePair_length (P : Prims) (L : List Nat) (st : List PNode) (idx : Nat) :
    (L.foldl (fun s j => resolvePair P s idx j) st).length = st.length := by
  induction L generalizing st with
  | nil => rfl
  | cons j L ih => simp only [List.foldl_cons]; rw [ih, resolvePair_length]

theorem foldl_resolvePair_map {β : Type} (P : Prims) (L : List Nat) (st : List PNode)
    (idx m : Nat) (g : PNode → β)
    (hg : ∀ (n : PNode) (v : Vec2), g { n with position := v } = g n) :
    ((L.foldl (fun s j => resolvePair P s idx j) st).get? m).map g = (st.get? m).map g := by
  induction L generalizing st with
  | nil => rfl
  | cons j L ih => simp only [List.foldl_cons]; rw [ih, resolvePair_map _ _ _ _ _ _ hg]

theorem foldl_resolvePair_get?_ne (P : Prims) (L : List Nat) (st : List PNode)
    (idx m : Nat) (h1 : m ≠ idx) (h2 : ∀ j ∈ L, m ≠ j) :
    (L.foldl (fun s j => resolvePair P s idx j) st).get? m = st.get? m := by
  induction L generalizing st with
  | nil => rfl
  | cons j L ih =>
    simp only [List.foldl_cons]
    rw [ih _ (fun x hx => h2 x (List.mem_cons_of_mem _ hx)),
      resolvePair_get?_ne _ _ _ _ _ h1 (h2 j (List.mem_cons_self _ _))]

theorem collideFrom_length (P : Prims) (st : List PNode) (idx : Nat) :
    (collideFrom P st idx).length = st.length :=
  foldl_resolvePair_length _ _ _ _

theorem collideFrom_map {β : Type} (P : Prims) (st : List PNode) (idx m : Nat)
    (g : PNode → β)
    (hg : ∀ (n : PNode) (v : Vec2), g { n with position := v } = g n) :
    ((collideFrom P st idx).get? m).map g = (st.get? m).map g :=
  foldl_resolvePair_map _ _ _ _ _ _ hg

theorem collideFrom_get?_le (P : Prims) (st : List PNode) (idx m : Nat)
    (h1 : m ≠ idx) (h2 : m ≤ idx) :
    (collideFrom P st idx).get? m = st.get? m := by
  refine foldl_resolvePair_get?_ne _ _ _ _ _ h1 ?_
  intro j hj
  have := List.mem_range'.mp hj
  omega

theorem phase1Node_length (P : Prims) (s : List PNode) (idx : Nat) (b : Bool) :
    (phase1Node P s idx b).1.length = s.length := by
  unfold phase1Node
  cases s.get? idx with
  | none => rfl
  | some n =>
    simp only
    split
    · rfl
    · simp [collideFrom_length, length_updAt]

theorem phase1Node_flags_ne (P : Prims) (s : List PNode) (idx : Nat) (b : Bool) (m : Nat)
    (h : m ≠ idx) :
    (((phase1Node P s idx b).1.get? m).map fun n => (n.parentNode, n.resting)) =
      ((s.get? m).map fun n => (n.parentNode, n.resting)) := by
  unfold phase1Node
  cases s.get? idx with
  | none => rfl
  | some n =>
    simp only
    split
    · rfl
    · rw [collideFrom_map P _ _ _ (fun x => (x.parentNode, x.resting)) (fun n v => rfl),
        get?_updAt_ne _ _ _ _ h]

theorem phase1Node_none (P : Prims) (s : List PNode) (idx : Nat) (b : Bool)
    (hs : s.get? idx = none) : phase1Node P s idx b = (s, b) := by
  unfold phase1Node
  rw [hs]

theorem phase1Node_root (P : Prims) (s : List PNode) (idx : Nat) (b : Bool) (n : PNode)
    (hs : s.get? idx = some n) (hp : n.parentNode = none) :
    phase1Node P s idx b = (s, b) := by
  unfold phase1Node
  rw [hs]
  simp [hp]

theorem phase1Node_main (P : Prims) (s : List PNode) (idx : Nat) (b : Bool) (n : PNode)
    (hs : s.get? idx = some n) (hp : n.parentNode ≠ none) :
    (phase1Node P s idx b).2 = (b && (integrateNode P n).resting)
    ∧ (((phase1Node P s idx b).1.get? idx).map fun x => (x.parentNode, x.resting)) =
        some (n.parentNode, (integrateNode P n).resting) := by
  unfold phase1Node
  rw [hs]
  simp only [if_neg hp]
  refine ⟨trivial, ?_⟩
  rw [collideFrom_map P _ _ _ (fun x => (x.parentNode, x.resting)) (fun n v => rfl),
    get?_updAt_self, hs]
  rfl

theorem exists_of_map_eq {β : Type} (g : PNode → β) (o1 o2 : Option PNode)
    (h : o1.map g = o2.map g) (n1 : PNode) (h1 : o1 = some n1) :
    ∃ n2, o2 = some n2 ∧ g n2 = g n1 := by
  subst h1
  cases o2 with
  | none => simp at h
  | some n2 => exact ⟨n2, rfl, by simpa using h.symm⟩

theorem phase1_spec (P : Prims) (st : List PNode) :
    (phase1 P st).1.length = st.length
    ∧ ((phase1 P st).2 = true ↔
        ∀ m n, (phase1 P st).1.get? m = some n → n.parentNode ≠ none → n.resting = true) := by
  have main : ∀ k,
      ((List.range k).foldl (fun p idx => phase1Node P p.1 idx p.2) (st, true)).1.length
          = st.length
      ∧ (((List.range k).foldl (fun p idx => phase1Node P p.1 idx p.2) (st, true)).2 = true ↔
          ∀ m n, m < k →
            ((List.range k).foldl (fun p idx => phase1Node P p.1 idx p.2) (st, true)).1.get? m
              = some n → n.parentNode ≠ none → n.resting = true) := by
    intro k
    induction k with
    | zero => simp
    | succ k ih =>
      rw [List.range_succ, List.foldl_append, List.foldl_cons, List.foldl_nil]
      obtain ⟨ihlen, ihgate⟩ := ih
      set S := (List.range k).foldl (fun p idx => phase1Node P p.1 idx p.2) (st, true) with hS
      cases hsk : S.1.get? k with
      | none =>
        rw [phase1Node_none _ _ _ _ hsk]
        refine ⟨ihlen, ?_⟩
        constructor
        · intro h m n hm hget hpar
          rcases Nat.lt_succ_iff_lt_or_eq.mp hm with hm | rfl
          · exact ihgate.mp h m n hm hget hpar
          · rw [hget] at hsk; cases hsk
        · intro h
          exact ihgate.mpr fun m n hm hget hpar => h m n (by omega) hget hpar
      | some n =>
        by_cases hp : n.parentNode = none
        · rw [phase1Node_root _ _ _ _ _ hsk hp]
          refine ⟨ihlen, ?_⟩
          constructor
          · intro h m x hm hget hpar
            rcases Nat.lt_succ_iff_lt_or_eq.mp hm with hm | rfl
            · exact ihgate.mp h m x hm hget hpar
            · rw [hget] at hsk
              injection hsk with he
              rw [he] at hpar
              exact absurd hp hpar
          · intro h
            exact ihgate.mpr fun m x hm hget hpar => h m x (by omega) hget hpar
        · obtain ⟨hval, hatk⟩ := phase1Node_main P S.1 k S.2 n hsk hp
          refine ⟨by rw [phase1Node_length, ihlen], ?_⟩
          rw [hval, Bool.and_eq_true]
          constructor
          · rintro ⟨hgate, hrest⟩ m x hm hget hpar
            rcases Nat.lt_succ_iff_lt_or_eq.mp hm with hm | rfl
            · have hne : m ≠ k := by omega
              have hflag := phase1Node_flags_ne P S.1 k S.2 m hne
              obtain ⟨x2, hx2, hgx⟩ := exists_of_map_eq _ _ _ hflag x hget
              obtain ⟨hp2, hr2⟩ := Prod.mk.inj hgx
              have hpar2 : x2.parentNode ≠ none := by rw [hp2]; exact hpar
              have hres := ihgate.mp hgate m x2 hm hx2 hpar2
              rw [← hr2]
              exact hres
            · rw [hget] at hatk
              injection hatk with he
              obtain ⟨hp2, hr2⟩ := Prod.mk.inj he
              rw [hr2]
              exact hrest
          · intro h
            constructor
            · refine ihgate.mpr fun m x hm hget hpar => ?_
              have hne : m ≠ k := by omega
              have hflag := phase1Node_flags_ne P S.1 k S.2 m hne
              obtain ⟨x2, hx2, hgx⟩ := exists_of_map_eq _ _ _ hflag.symm x hget
              obtain ⟨hp2, hr2⟩ := Prod.mk.inj hgx
              have hpar2 : x2.parentNode ≠ none := by rw [hp2]; exact hpar
              have hres := h m x2 (by omega) hx2 hpar2
              rw [← hr2]
              exact hres
            · cases hatk2 : (phase1Node P S.1 k S.2).1.get? k with
              | none => rw [hatk2] at hatk; cases hatk
              | some y =>
                rw [hatk2] at hatk
                injection hatk with he
                obtain ⟨hp2, hr2⟩ := Prod.mk.inj he
                have hpy : y.parentNode ≠ none := by rw [hp2]; exact hp
                have hres := h k y (Nat.lt_succ_self k) hatk2 hpy
                rw [← hr2]
                exact hres
  have hphase : phase1 P st =
      (List.range st.length).foldl (fun p idx => phase1Node P p.1 idx p.2) (st, true) := rfl
  rw [hphase]
  obtain ⟨hlen, hgate⟩ := main st.length
  refine ⟨hlen, ?_⟩
  constructor
  · intro h m n hget hpar
    have hm := (List.get?_eq_some.mp hget).1
    rw [hlen] at hm
    exact hgate.mp h m n hm hget hpar
  · intro h
    exact hgate.mpr fun m n hm hget hpar => h m n hget hpar

theorem phase1_get?_zero (P : Prims) (st : List PNode) (r : PNode)
    (h0 : st.get? 0 = some r) (hr : r.parentNode = none) :
    (phase1 P st).1.get? 0 = some r := by
  have main : ∀ k,
      ((List.range k).foldl (fun p idx => phase1Node P p.1 idx p.2) (st, true)).1.get? 0
        = some r := by
    intro k
    induction k with
    | zero => simpa using h0
    | succ k ih =>
      rw [List.range_succ, List.foldl_append, List.foldl_cons, List.foldl_nil]
      set S := (List.range k).foldl (fun p idx => phase1Node P p.1 idx p.2) (st, true) with hS
      cases hsk : S.1.get? k with
      | none => rw [phase1Node_none _ _ _ _ hsk]; exact ih
      | some n =>
        by_cases hp : n.parentNode = none
        · rw [phase1Node_root _ _ _ _ _ hsk hp]; exact ih
        · have hk0 : k ≠ 0 := by
            intro h
            subst h
            rw [ih] at hsk
            injection hsk with he
            rw [he] at hr
            exact hp hr
          unfold phase1Node
          rw [hsk]
          simp only [if_neg hp]
          rw [collideFrom_get?_le _ _ _ _ (by omega) (by omega),
            get?_updAt_ne _ _ _ _ (by omega)]
          exact ih
  exact main st.length

theorem linkPhase2_position (P : Prims) (wind : ℚ × ℚ) (numLinks : Nat)
    (st : List PNode) (lk : PLink) (index m : Nat) :
    (((linkPhase2 P wind numLinks st lk index).1.get? m).map (·.position)) =
      ((st.get? m).map (·.position)) := by
  have hmv : ∀ (s : List PNode) (i : Nat) (f : Vec2 → Vec2) (m : Nat),
      ((mapVel s i f).get? m).map (·.position) = (s.get? m).map (·.position) := by
    intro s i f m
    unfold mapVel
    exact get?_updAt_map _ _ _ _ _ (fun n => rfl)
  unfold linkPhase2
  cases st.get? lk.source with
  | none =>
    cases st.get? lk.target <;> rfl
  | some s0 =>
    cases st.get? lk.target with
    | none => rfl
    | some t0 =>
      simp only
      split
      · rw [hmv, hmv, hmv, hmv, hmv, hmv, hmv, hmv]
      · rw [hmv, hmv, hmv, hmv, hmv, hmv]

theorem phase2_position (P : Prims) (wind : ℚ × ℚ) (st : List PNode)
    (links : List PLink) (m : Nat) :
    (((phase2 P wind st links).1.get? m).map (·.position)) =
      ((st.get? m).map (·.position)) := by
  have main : ∀ (ls : List PLink) (acc : List PNode × List PLink × Nat),
      (((ls.foldl
          (fun (acc : List PNode × List PLink × Nat) lk =>
            let s := linkPhase2 P wind links.length acc.1 lk acc.2.2
            (s.1, acc.2.1 ++ [s.2], acc.2.2 + 1)) acc).1.get? m).map (·.position)) =
        ((acc.1.get? m).map (·.position)) := by
    intro ls
    induction ls with
    | nil => intro acc; rfl
    | cons lk ls ih =>
      intro acc
      simp only [List.foldl_cons]
      rw [ih]
      exact linkPhase2_position _ _ _ _ _ _ _
  exact main links (st, [], 0)

theorem attachSimilar_descs_mono (parentIdx K : Nat) (i : Nat) (recs : List SimRec)
    (nodes : List PNode) (links : List PLink) (newly : List Nat) (x : String)
    (hx : x ∈ descs nodes) :
    x ∈ descs (attachSimilar parentIdx K i recs nodes links newly).1 := by
  induction recs generalizing i nodes links newly with
  | nil => exact hx
  | cons s rest ih =>
    unfold attachSimilar
    cases hg : nodes.get? parentIdx with
    | none => exact ih _ _ _ _ hx
    | some parent =>
      simp only
      split
      · exact ih _ _ _ _ hx
      · apply ih
        rw [descs_append, descs_updAt_children]
        exact List.mem_append_left _ hx

theorem attachSimilar_covers (parentIdx K : Nat) (i : Nat) (recs : List SimRec)
    (nodes : List PNode) (links : List PLink) (newly : List Nat)
    (hp : parentIdx < nodes.length) :
    ∀ s ∈ recs, s.text ∈ descs (attachSimilar parentIdx K i recs nodes links newly).1 := by
  induction recs generalizing i nodes links newly with
  | nil => intro s hs; cases hs
  | cons s0 rest ih =>
    intro s hs
    unfold attachSimilar
    cases hg : nodes.get? parentIdx with
    | none =>
      have := List.get?_eq_none.mp hg
      omega
    | some parent =>
      simp only
      cases hs with
      | head =>
        split
        · rename_i heq
          apply attachSimilar_descs_mono
          rw [mem_descs_iff]
          exact ⟨parent, List.get?_mem hg, heq⟩
        · apply attachSimilar_descs_mono
          rw [descs_append, descs_updAt_children]
          refine List.mem_append_right _ ?_
          simp [descs, mkNode]
      | tail _ hs =>
        split
        · exact ih _ _ _ _ hp s hs
        · refine ih _ _ _ _ ?_ s hs
          rw [List.length_append, length_updAt]
          omega

theorem attachSimilar_nodup (parentIdx K : Nat) (i : Nat) (recs : List SimRec)
    (nodes : List PNode) (links : List PLink) (newly : List Nat)
    (hn : (descs nodes).Nodup)
    (hmem : ∀ s ∈ recs, s.text ∉ descs nodes)
    (hrec : (recs.map (·.text)).Nodup) :
    (descs (attachSimilar parentIdx K i recs nodes links newly).1).Nodup := by
  induction recs generalizing i nodes links newly with
  | nil => exact hn
  | cons s0 rest ih =>
    rw [List.map_cons, List.nodup_cons] at hrec
    unfold attachSimilar
    cases hg : nodes.get? parentIdx with
    | none =>
      exact ih _ _ _ _ hn (fun s hs => hmem s (List.mem_cons_of_mem _ hs)) hrec.2
    | some parent =>
      simp only
      split
      · exact ih _ _ _ _ hn (fun s hs => hmem s (List.mem_cons_of_mem _ hs)) hrec.2
      · refine ih _ _ _ _ ?_ ?_ hrec.2
        · rw [descs_append, descs_updAt_children]
          rw [List.nodup_append]
          refine ⟨hn, by simp [descs], ?_⟩
          intro x hx
          simp only [descs, mkNode, List.map_cons, List.map_nil, List.mem_singleton]
          intro hx2
          rw [hx2] at hx
          exact hmem s0 (List.mem_cons_self _ _) hx
        · intro s hs
          rw [descs_append, descs_updAt_children]
          intro hmem2
          rcases List.mem_append.mp hmem2 with h | h
          · exact hmem s (List.mem_cons_of_mem _ hs) h
          · simp only [descs, mkNode, List.map_cons, List.map_nil,
              List.mem_singleton] at h
            exact hrec.1 (h ▸ List.mem_map_of_mem _ hs)

/-- C8: the representative center point used by `smoothMoveToNode`,
computed by `calculateNodesCenter` from a non-empty node list, is: for a
one-element list the single node's position; for every odd-length list
exactly the position of the element at index `⌊n/2⌋`; for every
even-length list the arithmetic midpoint of the positions of the
elements at indices `n/2 - 1` and `n/2`. -/
theorem calculateNodesCenter_spec (nodes : List PNode) (hne : nodes ≠ []) :
    (nodes.length = 1 → calculateNodesCenter nodes = (nodes.get? 0).map (·.position))
    ∧ (nodes.length % 2 = 1 →
        calculateNodesCenter nodes = (nodes.get? (nodes.length / 2)).map (·.position))
    ∧ (nodes.length % 2 = 0 → ∀ n1 n2,
        nodes.get? (nodes.length / 2 - 1) = some n1 →
        nodes.get? (nodes.length / 2) = some n2 →
        calculateNodesCenter nodes =
          some ⟨(n1.position.x + n2.position.x) / 2,
                (n1.position.y + n2.position.y) / 2⟩) := by
  match nodes with
  | [] => exact absurd rfl hne
  | [n] =>
    refine ⟨fun _ => rfl, fun _ => by simp [calculateNodesCenter], fun h => ?_⟩
    simp at h
  | a :: b :: l =>
    have hd : calculateNodesCenter (a :: b :: l) =
        (if (a :: b :: l).length % 2 = 1 then
          ((a :: b :: l).get? ((a :: b :: l).length / 2)).map (·.position)
        else
          match (a :: b :: l).get? ((a :: b :: l).length / 2 - 1),
              (a :: b :: l).get? ((a :: b :: l).length / 2) with
          | some n1, some n2 =>
            some ⟨(n1.position.x + n2.position.x) / 2,
                  (n1.position.y + n2.position.y) / 2⟩
          | _, _ => none) := rfl
    refine ⟨fun h1 => ?_, fun hodd => ?_, fun heven n1 n2 hn1 hn2 => ?_⟩
    · simp only [List.length_cons] at h1
      omega
    · rw [hd, if_pos hodd]
    · rw [hd, if_neg (by omega), hn1, hn2]

/-- Witness for the center-point claim at the concrete two-element list
`[rootNode0 at (0,0), a child at (4,6)]`: the computed center is the
midpoint `(2,3)`. -/
theorem calculateNodesCenter_spec_witness :
    calculateNodesCenter [rootNode0, nodeAt ⟨4, 6⟩ "w" (some 0) 0] = some ⟨2, 3⟩ := by
  have H := (calculateNodesCenter_spec [rootNode0, nodeAt ⟨4, 6⟩ "w" (some 0) 0]
    (by decide)).2.2 (by decide) rootNode0 (nodeAt ⟨4, 6⟩ "w" (some 0) 0)
    (by decide) (by decide)
  rw [H]
  with_unfolding_all decide

/-- C9: the scale computed by `autoZoomForDepth` is exactly `1` for a
single-node store (in particular for depth 0), equals
`clamp((svgHeight - 2*PADDING) / (depth * EDGE_LENGTH), MIN_ZOOM,
MAX_ZOOM)` for a multi-node store at nonzero depth, and on positive
depths it is monotonically non-increasing in the depth and never falls
below `MIN_ZOOM`. -/
theorem autoZoomScale_spec :
    (∀ h d, autoZoomScale 1 h d = some 1)
    ∧ (∀ n h d, 2 ≤ n → d ≠ 0 →
        autoZoomScale n h d =
          some (max MIN_ZOOM (min MAX_ZOOM ((h - 2 * PADDING) / (d * EDGE_LENGTH)))))
    ∧ (∀ n h d1 d2 s1 s2, 2 ≤ n → 0 < d1 → d1 ≤ d2 →
        autoZoomScale n h d1 = some s1 → autoZoomScale n h d2 = some s2 →
        s2 ≤ s1 ∧ MIN_ZOOM ≤ s1 ∧ MIN_ZOOM ≤ s2) := by
  have hbase : ∀ (n : Nat) (h d : ℚ), 2 ≤ n → d ≠ 0 → autoZoomScale n h d =
      some (max MIN_ZOOM (min MAX_ZOOM ((h - 2 * PADDING) / (d * EDGE_LENGTH)))) := by
    intro n h d hn hd
    unfold autoZoomScale
    rw [if_neg (by omega), if_neg (by
      intro hz
      rcases mul_eq_zero.mp hz with hz | hz
      · exact hd hz
      · norm_num [EDGE_LENGTH] at hz)]
    have harr : h - PADDING * 2 = h - 2 * PADDING := by ring
    rw [harr]
  refine ⟨fun h d => by simp [autoZoomScale, DEFAULT_ZOOM], hbase, ?_⟩
  intro n h d1 d2 s1 s2 hn hd1 hle hs1 hs2
  have hd2 : (0 : ℚ) < d2 := lt_of_lt_of_le hd1 hle
  rw [hbase n h d1 hn (ne_of_gt hd1)] at hs1
  rw [hbase n h d2 hn (ne_of_gt hd2)] at hs2
  injection hs1 with hs1
  injection hs2 with hs2
  subst hs1
  subst hs2
  refine ⟨?_, le_max_left _ _, le_max_left _ _⟩
  by_cases hnum : h - 2 * PADDING ≤ 0
  · have hel : (0 : ℚ) < EDGE_LENGTH := by norm_num [EDGE_LENGTH]
    have hq1 : (h - 2 * PADDING) / (d1 * EDGE_LENGTH) ≤ 0 :=
      div_nonpos_of_nonpos_of_nonneg hnum (le_of_lt (mul_pos hd1 hel))
    have hq2 : (h - 2 * PADDING) / (d2 * EDGE_LENGTH) ≤ 0 :=
      div_nonpos_of_nonpos_of_nonneg hnum (le_of_lt (mul_pos hd2 hel))
    have e1 : max MIN_ZOOM (min MAX_ZOOM ((h - 2 * PADDING) / (d1 * EDGE_LENGTH)))
        = MIN_ZOOM := by
      rw [min_eq_right (le_trans hq1 (by norm_num [MAX_ZOOM]))]
      exact max_eq_left (le_trans hq1 (by norm_num [MIN_ZOOM]))
    have e2 : max MIN_ZOOM (min MAX_ZOOM ((h - 2 * PADDING) / (d2 * EDGE_LENGTH)))
        = MIN_ZOOM := by
      rw [min_eq_right (le_trans hq2 (by norm_num [MAX_ZOOM]))]
      exact max_eq_left (le_trans hq2 (by norm_num [MIN_ZOOM]))
    rw [e1, e2]
  · push_neg at hnum
    have hel : (0 : ℚ) < EDGE_LENGTH := by norm_num [EDGE_LENGTH]
    have hq : (h - 2 * PADDING) / (d2 * EDGE_LENGTH)
        ≤ (h - 2 * PADDING) / (d1 * EDGE_LENGTH) := by
      refine div_le_div_of_nonneg_left (le_of_lt hnum) (mul_pos hd1 hel) ?_
      nlinarith
    exact max_le_max (le_refl _) (min_le_min (le_refl _) hq)

/-- Witness for the auto-zoom claim at `n = 3`, `svgHeight = 800`,
depths `1 ≤ 2`: the two computed scales are `2` and `3/2`, and indeed
`3/2 ≤ 2` with both at least `MIN_ZOOM`. -/
theorem autoZoomScale_spec_witness :
    (3 / 2 : ℚ) ≤ 2 ∧ MIN_ZOOM ≤ (2 : ℚ) ∧ MIN_ZOOM ≤ (3 / 2 : ℚ) :=
  autoZoomScale_spec.2.2 3 800 1 2 2 (3 / 2) (by decide)
    (by with_unfolding_all decide) (by with_unfolding_all decide)
    (by with_unfolding_all decide) (by with_unfolding_all decide)

/-- C10: on a store whose root (`parentNode = none`) is the first
element, a physics tick leaves the root's position unchanged: Phase 1
skips the root and the collision loop never reaches index 0, and Phase 2
touches only velocities and link angles — for every primitive bundle,
every link list and every wind input. -/
theorem updatePhysics_root_position (P : Prims) (st : List PNode) (links : List PLink)
    (wind : ℚ × ℚ) (r : PNode) (h0 : st.get? 0 = some r) (hr : r.parentNode = none) :
    ((updatePhysics P st links wind).1.get? 0).map (·.position) = some r.position := by
  have h1 : (phase1 P st).1.get? 0 = some r := phase1_get?_zero P st r h0 hr
  unfold updatePhysics
  by_cases hg : (phase1 P st).2 = true
  · rw [if_pos hg, phase2_position, h1]
    rfl
  · rw [if_neg hg, h1]
    rfl

/-- Witness for the root-position claim: the concrete two-node store
with a child approaching from distance 100; Phase 2 fires and changes
velocities, but the root stays at the origin. -/
theorem updatePhysics_root_position_witness :
    ((updatePhysics P0 [rootNode0, nodeAt ⟨100, 0⟩ "A" (some 0) 0] [⟨0, 1, 0, none⟩]
      (0, 0)).1.get? 0).map (·.position) = some rootNode0.position :=
  updatePhysics_root_position P0 [rootNode0, nodeAt ⟨100, 0⟩ "A" (some 0) 0]
    [⟨0, 1, 0, none⟩] (0, 0) rootNode0 (by decide) (by decide)

/-- C3 (amended): the Phase-2 link pass of `updatePhysics` runs if and
only if every non-root node's freshly computed resting flag is true that
tick; the root (`parentNode = null`) is skipped by Phase 1, so its flag
is neither updated nor consulted.  If some non-root node is not resting,
the tick returns the Phase-1 state with the links untouched (no
link-based force at all); if all non-root nodes rest, the tick is
exactly Phase 2 applied to the Phase-1 state. -/
theorem updatePhysics_phase2_gate (P : Prims) (st : List PNode) (links : List PLink)
    (wind : ℚ × ℚ) :
    ((phase1 P st).2 = true ↔
      ∀ m n, (phase1 P st).1.get? m = some n → n.parentNode ≠ none → n.resting = true)
    ∧ ((phase1 P st).2 = true →
        updatePhysics P st links wind = phase2 P wind (phase1 P st).1 links)
    ∧ ((phase1 P st).2 = false →
        updatePhysics P st links wind = ((phase1 P st).1, links)) := by
  refine ⟨(phase1_spec P st).2, fun h => ?_, fun h => ?_⟩
  · unfold updatePhysics
    rw [if_pos h]
  · unfold updatePhysics
    rw [if_neg (by rw [h]; exact Bool.false_ne_true)]

/-- Witness for the gate claim: with a fast child the gate stays closed
and the tick is the Phase-1 state with untouched links. -/
theorem updatePhysics_phase2_gate_witness :
    updatePhysics P0 [rootNode0, fastChild] [] (0, 0) =
      ((phase1 P0 [rootNode0, fastChild]).1, []) :=
  (updatePhysics_phase2_gate P0 [rootNode0, fastChild] [] (0, 0)).2.2
    (by with_unfolding_all decide)

/-- C3 counterexample, refuting both readings of "every node".  On
`c3store` the root's resting flag is `false` (the constructor default,
never recomputed for the root), yet Phase 2 fires — it is gated only on
the child — and the spring force changes the child's velocity from
`(0,0)` to `(16/5, 0)`.  On `c3storeFast` the root's velocity magnitude
is `100`, far above `RESTING_THRESHOLD` (damped or not: the root is
never damped), and Phase 2 still modifies the child's velocity.  So
"Phase 2 modifies velocities if and only if every node's resting flag is
true / every node's damped velocity magnitude is below the threshold" is
false as stated. -/
theorem updatePhysics_gate_counterexample :
    (((updatePhysics P0 c3store [⟨0, 1, 0, none⟩] (0, 0)).1.get? 1).map (·.velocity)
        = some ⟨16 / 5, 0⟩
      ∧ ((c3store.get? 1).map (·.velocity) = some ⟨0, 0⟩)
      ∧ ((updatePhysics P0 c3store [⟨0, 1, 0, none⟩] (0, 0)).1.get? 0).map (·.resting)
          = some false)
    ∧ (((updatePhysics P0 c3storeFast [⟨0, 1, 0, none⟩] (0, 0)).1.get? 1).map (·.velocity)
        = some ⟨16 / 5, 0⟩
      ∧ ((c3storeFast.get? 0).map (·.velocity) = some ⟨100, 0⟩)
      ∧ ¬((100 : ℚ) < RESTING_THRESHOLD) ∧ ¬((100 : ℚ) * DAMPING < RESTING_THRESHOLD)) := by
  with_unfolding_all decide

/-- C4 counterexample: after one full `updatePhysics` pass (with no
links, so Phase 2 is a no-op), (1) on `c4store1` the root and its
coincident child are both still at the origin — pairs containing the
first-listed root are never collision-checked — and (2) on `c4store2`
nodes `A` (index 1) and `B` (index 2) end at `0` and `33`: resolving the
later `(B, C)` overlap pushed `B` back into `A` after the `(A, B)` pair
had already been checked.  In both cases the final squared distance
(`0` resp. `33²`) is below `(30 + 30 + 5 - 1)² = (minDistance - ε)²`
with `ε = 1`, refuting the claimed post-pass bound. -/
theorem updatePhysics_collision_counterexample :
    (((updatePhysics P0 c4store1 [] (0, 0)).1.get? 0).map (·.position) = some ⟨0, 0⟩
      ∧ ((updatePhysics P0 c4store1 [] (0, 0)).1.get? 1).map (·.position) = some ⟨0, 0⟩)
    ∧ (((updatePhysics P0 c4store2 [] (0, 0)).1.get? 1).map (·.position) = some ⟨0, 0⟩
      ∧ ((updatePhysics P0 c4store2 [] (0, 0)).1.get? 2).map (·.position) = some ⟨33, 0⟩)
    ∧ ((33 : ℚ) * 33 < (30 + 30 + 5 - 1) * (30 + 30 + 5 - 1))
    ∧ ((0 : ℚ) * 0 < (30 + 30 + 5 - 1) * (30 + 30 + 5 - 1)) := by
  with_unfolding_all decide

/-- C4 (amended): what a single pair resolution does guarantee — when
the collision loop processes an overlapping pair (at indices `idx ≠ j`),
it pushes the two nodes apart along their connecting line by half the
overlap each, leaving that pair at distance exactly
`extent_a + extent_b + COLLISION_BUFFER` at that moment (both for
separated and for exactly coincident nodes, where JS `atan2(0,0) = 0`
pushes horizontally).  The hypotheses pin the primitive bundle to the
true values of `sqrt`, `cos∘atan2` and `sin∘atan2` at the single
geometry involved. -/
theorem resolvePair_exact (P : Prims) (st : List PNode) (idx j : Nat) (a b : PNode)
    (dx dy d minD : ℚ)
    (hij : idx ≠ j)
    (ha : st.get? idx = some a) (hb : st.get? j = some b)
    (hdx : dx = b.position.x - a.position.x)
    (hdy : dy = b.position.y - a.position.y)
    (hmD : minD = a.extent + b.extent + COLLISION_BUFFER)
    (hsq : P.sqrt (dx * dx + dy * dy) = d)
    (hd2 : d * d = dx * dx + dy * dy)
    (hdnn : 0 ≤ d)
    (hcos : P.cos (P.atan2 dy dx) = if d = 0 then 1 else dx / d)
    (hsin : P.sin (P.atan2 dy dx) = if d = 0 then 0 else dy / d)
    (hlt : d < minD) :
    ∀ a2 b2, (resolvePair P st idx j).get? idx = some a2 →
      (resolvePair P st idx j).get? j = some b2 →
      (b2.position.x - a2.position.x) * (b2.position.x - a2.position.x) +
        (b2.position.y - a2.position.y) * (b2.position.y - a2.position.y) =
      minD * minD := by
  intro a2 b2 ha2 hb2
  unfold resolvePair at ha2 hb2
  rw [ha, hb] at ha2 hb2
  simp only [← hdx, ← hdy, ← hmD, hsq] at ha2 hb2
  rw [if_pos hlt] at ha2 hb2
  rw [get?_updAt_ne _ _ _ _ hij, get?_updAt_self, ha] at ha2
  rw [get?_updAt_self, get?_updAt_ne _ _ _ _ (Ne.symm hij), hb] at hb2
  injection ha2 with ha2
  injection hb2 with hb2
  rw [← ha2, ← hb2]
  simp only
  rw [hcos, hsin]
  by_cases hd0 : d = 0
  · have hzero : dx * dx + dy * dy = 0 := by rw [← hd2, hd0]; ring
    have hdx0 : dx = 0 := by nlinarith [mul_self_nonneg dx, mul_self_nonneg dy]
    have hdy0 : dy = 0 := by nlinarith [mul_self_nonneg dx, mul_self_nonneg dy]
    have hbx : b.position.x = a.position.x := by
      rw [hdx0] at hdx
      linarith [hdx]
    have hby : b.position.y = a.position.y := by
      rw [hdy0] at hdy
      linarith [hdy]
    rw [if_pos hd0, if_pos hd0, hd0, hbx, hby]
    ring
  · rw [if_neg hd0, if_neg hd0]
    have hbx : b.position.x = dx + a.position.x := by rw [hdx]; ring
    have hby : b.position.y = dy + a.position.y := by rw [hdy]; ring
    rw [hbx, hby]
    have e1 : (dx + a.position.x + (minD - d) / 2 * (dx / d)) -
        (a.position.x - (minD - d) / 2 * (dx / d)) = dx * minD / d := by
      field_simp
      ring
    have e2 : (dy + a.position.y + (minD - d) / 2 * (dy / d)) -
        (a.position.y - (minD - d) / 2 * (dy / d)) = dy * minD / d := by
      field_simp
      ring
    rw [e1, e2]
    have hstep : dx * minD / d * (dx * minD / d) + dy * minD / d * (dy * minD / d) =
        (dx * dx + dy * dy) * (minD * minD) / (d * d) := by
      field_simp
      ring
    rw [hstep, ← hd2, mul_comm (d * d) (minD * minD), mul_div_assoc,
      div_self (mul_ne_zero hd0 hd0), mul_one]

/-- Witness for the pair-resolution claim on the 3-4-5 geometry of
`stW4`: the overlapping pair at distance 5 (radii 30 + 30, buffer 5)
ends at squared distance exactly `65²`. -/
theorem resolvePair_exact_witness :
    ((21 : ℚ) - -18) * (21 - -18) + ((28 : ℚ) - -24) * (28 - -24) = 65 * 65 := by
  have H := resolvePair_exact PW4 stW4 0 1 (nodeAt ⟨0, 0⟩ "a" none 0)
    (nodeAt ⟨3, 4⟩ "b" none 0) 3 4 5 65 (by decide)
    (by with_unfolding_all decide) (by with_unfolding_all decide)
    (by with_unfolding_all decide) (by with_unfolding_all decide)
    (by with_unfolding_all decide) (by with_unfolding_all decide)
    (by with_unfolding_all decide) (by with_unfolding_all decide)
    (by with_unfolding_all decide) (by with_unfolding_all decide)
    (by with_unfolding_all decide)
    { nodeAt ⟨0, 0⟩ "a" none 0 with position := ⟨-18, -24⟩ }
    { nodeAt ⟨3, 4⟩ "b" none 0 with position := ⟨21, 28⟩ }
    (by with_unfolding_all decide) (by with_unfolding_all decide)
  simpa using H

/-- C5 counterexample: a link whose two endpoints coincide (`c5node`
twice), both resting, processed by the refined (non-finite-tracking)
model of the Phase-2 link body: the spring computation is not skipped —
`fx = (springForce * 0) / 0` is JS `NaN` — and all four endpoint
velocity components end non-finite (`none`), refuting both the claimed
degenerate-guard skip and the claimed finiteness. -/
theorem jsLinkPhase2_zero_length_counterexample :
    ((jsLinkPhase2 JP0 (some 0, some 0) 1 0 c5node c5node none).1.vx = none)
    ∧ ((jsLinkPhase2 JP0 (some 0, some 0) 1 0 c5node c5node none).1.vy = none)
    ∧ ((jsLinkPhase2 JP0 (some 0, some 0) 1 0 c5node c5node none).2.1.vx = none)
    ∧ ((jsLinkPhase2 JP0 (some 0, some 0) 1 0 c5node c5node none).2.1.vy = none) := by
  with_unfolding_all decide

/-- C5 (amended): `updatePhysics` has no zero-length guard.  For every
link whose endpoints occupy the same (finite) position during a Phase-2
tick — whatever the wind, the link index, the resting flags and the
stored angle — the spring force divides by the zero distance and all
four endpoint velocity components come out non-finite (JS `NaN`). -/
theorem jsLinkPhase2_zero_length_nan (A : JsPrims) (wind : JQ × JQ)
    (numLinks index : Nat) (source target : JsPNode) (angle : Option JQ)
    (px py : ℚ)
    (hsx : source.px = some px) (hsy : source.py = some py)
    (htx : target.px = some px) (hty : target.py = some py)
    (hsq : A.sqrt 0 = 0) :
    ((jsLinkPhase2 A wind numLinks index source target angle).1.vx = none)
    ∧ ((jsLinkPhase2 A wind numLinks index source target angle).1.vy = none)
    ∧ ((jsLinkPhase2 A wind numLinks index source target angle).2.1.vx = none)
    ∧ ((jsLinkPhase2 A wind numLinks index source target angle).2.1.vy = none) := by
  unfold jsLinkPhase2
  rw [hsx, hsy, htx, hty]
  simp only [jsub_some_some, sub_self, jmul_some_some, mul_zero, zero_mul, jadd_some_some,
    add_zero, jsqrt_some_zero A hsq, jfin_def, jdiv_some_zero, jsub_none_right,
    jadd_none_left, jadd_none_right, jmul_none_left, jmul_none_right]
  refine ⟨?_, ?_, ?_, ?_⟩ <;> (split <;> rfl)

/-- Witness for the no-guard claim: a coincident link at position
`(7, 9)` with nonzero velocities, non-resting flags and an already
captured angle still ends with all-NaN velocities. -/
theorem jsLinkPhase2_zero_length_nan_witness :
    ((jsLinkPhase2 JP0 (some 1, some 2) 3 1 ⟨some 7, some 9, some 1, some 2, false⟩
        ⟨some 7, some 9, some 3, some 4, false⟩ (some (some 5))).1.vx = none)
    ∧ ((jsLinkPhase2 JP0 (some 1, some 2) 3 1 ⟨some 7, some 9, some 1, some 2, false⟩
        ⟨some 7, some 9, some 3, some 4, false⟩ (some (some 5))).1.vy = none)
    ∧ ((jsLinkPhase2 JP0 (some 1, some 2) 3 1 ⟨some 7, some 9, some 1, some 2, false⟩
        ⟨some 7, some 9, some 3, some 4, false⟩ (some (some 5))).2.1.vx = none)
    ∧ ((jsLinkPhase2 JP0 (some 1, some 2) 3 1 ⟨some 7, some 9, some 1, some 2, false⟩
        ⟨some 7, some 9, some 3, some 4, false⟩ (some (some 5))).2.1.vy = none) :=
  jsLinkPhase2_zero_length_nan JP0 (some 1, some 2) 3 1
    ⟨some 7, some 9, some 1, some 2, false⟩ ⟨some 7, some 9, some 3, some 4, false⟩
    (some (some 5)) 7 9 rfl rfl rfl rfl (by with_unfolding_all decide)

theorem safeGet_eq_some (t : SimRec) (m : List (Nat × List SimRec)) (lst : List SimRec)
    (h : safeGetSimilarRecords t m = some lst) :
    ∃ k, t.id = some k ∧ lookupSim m k = some lst := by
  unfold safeGetSimilarRecords at h
  cases hid : t.id with
  | none => rw [hid] at h; cases h
  | some k =>
    rw [hid] at h
    dsimp only at h
    by_cases hk : k = 0
    · rw [if_pos hk] at h; cases h
    · rw [if_neg hk] at h; exact ⟨k, rfl, h⟩

/-- C1 (amended): on an initially empty store, a Tree-Builder call with
a history of any length `N ≥ 1` whose neighbor lists are all empty or
absent produces exactly one node — the root, built from the first
history record, with no parent — and no links.  The active tree builder
never walks `searchHistory` beyond index 0, so no path of history nodes
is built. -/
theorem updateTree_emptyNeighbors (history : List SimRec)
    (simRecords : List (Nat × List SimRec)) (active : Option SimRec)
    (h0 : SimRec) (rest : List SimRec) (hh : history = h0 :: rest)
    (hsim : ∀ k, lookupSim simRecords k = none ∨ lookupSim simRecords k = some []) :
    ((updateTreeFromHistory ⟨[], []⟩ history simRecords active).1.nodes.length = 1)
    ∧ ((updateTreeFromHistory ⟨[], []⟩ history simRecords active).1.links = [])
    ∧ (∀ n, (updateTreeFromHistory ⟨[], []⟩ history simRecords active).1.nodes.get? 0
          = some n → n.description = h0.text ∧ n.parentNode = none) := by
  subst hh
  unfold updateTreeFromHistory
  simp only [jsFindIdx]
  cases hsafe : safeGetSimilarRecords (resolveTarget (h0 :: rest) h0 active)
      simRecords with
  | none =>
    simp only
    refine ⟨by trivial, by trivial, fun n hn => ?_⟩
    simp only [List.nil_append] at hn
    injection hn with hn
    rw [← hn]
    exact ⟨rfl, rfl⟩
  | some lst =>
    have hlst : lst = [] := by
      obtain ⟨k, hid, hlk⟩ := safeGet_eq_some _ _ _ hsafe
      rcases hsim k with h | h
      · rw [h] at hlk; cases hlk
      · rw [h] at hlk
        injection hlk with he
        exact he.symm
    subst hlst
    simp only [List.filter_nil]
    refine ⟨by trivial, by trivial, fun n hn => ?_⟩
    simp only [List.nil_append] at hn
    injection hn with hn
    rw [← hn]
    exact ⟨rfl, rfl⟩

/-- Witness for the empty-neighbor claim: history `[A, B]` with an empty
similarity map on the empty store yields one node (the root `A`) and no
links. -/
theorem updateTree_emptyNeighbors_witness :
    ((updateTreeFromHistory ⟨[], []⟩ [recA, recB] [] none).1.nodes.length = 1)
    ∧ ((updateTreeFromHistory ⟨[], []⟩ [recA, recB] [] none).1.links = []) :=
  ⟨(updateTree_emptyNeighbors [recA, recB] [] none recA [recB] rfl
      (fun _ => Or.inl rfl)).1,
   (updateTree_emptyNeighbors [recA, recB] [] none recA [recB] rfl
      (fun _ => Or.inl rfl)).2.1⟩

/-- C1 counterexample: on history `[A, B]` (two distinct descriptions,
all neighbor lists empty) the store ends with 1 node, not the claimed
N = 2 nodes with N - 1 = 1 link forming a path. -/
theorem updateTree_path_counterexample :
    ((updateTreeFromHistory ⟨[], []⟩ [recA, recB] [] none).1.nodes.length = 1)
    ∧ ¬(((updateTreeFromHistory ⟨[], []⟩ [recA, recB] [] none).1.nodes.length = 2)
        ∧ ((updateTreeFromHistory ⟨[], []⟩ [recA, recB] [] none).1.links.length = 1)) := by
  with_unfolding_all decide

/-- C2 (amended): description dedup holds against everything already
present: if the store's descriptions are pairwise distinct and every
neighbor list in the similarity map is itself free of internal duplicate
descriptions, then after a Tree-Builder call the store's descriptions
are still pairwise distinct.  (As the counterexample shows, the original
global claim fails when one neighbor list repeats a description, because
the dedup filter is evaluated as a batch before any of the batch is
inserted.) -/
theorem updateTree_nodup (st : TreeState) (history : List SimRec)
    (simRecords : List (Nat × List SimRec)) (active : Option SimRec)
    (hst : (descs st.nodes).Nodup)
    (hsim : ∀ k l, lookupSim simRecords k = some l → (l.map (·.text)).Nodup) :
    (descs (updateTreeFromHistory st history simRecords active).1.nodes).Nodup := by
  cases history with
  | nil => exact hst
  | cons h0 rest =>
    unfold updateTreeFromHistory
    cases hroot : jsFindIdx (fun n => n.description == h0.text) st.nodes with
    | some i =>
      simp only [hroot]
      cases hsafe : safeGetSimilarRecords (resolveTarget (h0 :: rest) h0 active)
          simRecords with
      | none => exact hst
      | some lst =>
        obtain ⟨k, hid, hlk⟩ := safeGet_eq_some _ _ _ hsafe
        refine attachSimilar_nodup _ _ _ _ _ _ _ hst ?_ ?_
        · intro s hs
          have hpred := (List.mem_filter.mp hs).2
          simp only [Bool.not_eq_true'] at hpred
          rw [mem_descs_iff]
          rintro ⟨n, hn, hdesc⟩
          have := List.any_eq_false.mp hpred n hn
          simp [hdesc] at this
        · refine List.Nodup.sublist ?_ (hsim k lst hlk)
          exact List.Sublist.map _ (List.filter_sublist _)
    | none =>
      simp only [hroot]
      have h1 : (descs (st.nodes ++ [mkNode ⟨0, 0⟩ h0.text h0.image none 0 h0.id])).Nodup := by
        rw [descs_append, List.nodup_append]
        refine ⟨hst, by simp [descs], ?_⟩
        intro x hx
        simp only [descs, List.map_cons, List.map_nil, List.mem_singleton, mkNode]
        intro hx2
        rw [hx2] at hx
        rw [mem_descs_iff] at hx
        obtain ⟨n, hn, hdesc⟩ := hx
        have := jsFindIdx_eq_none _ _ hroot n hn
        simp [hdesc] at this
      cases hsafe : safeGetSimilarRecords (resolveTarget (h0 :: rest) h0 active)
          simRecords with
      | none => exact h1
      | some lst =>
        obtain ⟨k, hid, hlk⟩ := safeGet_eq_some _ _ _ hsafe
        refine attachSimilar_nodup _ _ _ _ _ _ _ h1 ?_ ?_
        · intro s hs
          have hpred := (List.mem_filter.mp hs).2
          simp only [Bool.not_eq_true'] at hpred
          rw [mem_descs_iff]
          rintro ⟨n, hn, hdesc⟩
          have := List.any_eq_false.mp hpred n hn
          simp [hdesc] at this
        · refine List.Nodup.sublist ?_ (hsim k lst hlk)
          exact List.Sublist.map _ (List.filter_sublist _)

/-- Witness for the dedup claim: history `[A]` with the duplicate-free
neighbor list `[B]` on the empty store gives a store (root `A`, child
`B`) with pairwise-distinct descriptions. -/
theorem updateTree_nodup_witness :
    (descs (updateTreeFromHistory ⟨[], []⟩ [recA] [(1, [recB])] none).1.nodes).Nodup :=
  updateTree_nodup ⟨[], []⟩ [recA] [(1, [recB])] none (by simp [descs])
    (by
      intro k l h
      unfold lookupSim at h
      by_cases hk : (1 : Nat) = k
      · simp only [List.find?, hk, beq_self_eq_true] at h
        injection h with h
        rw [← h]
        simp
      · simp only [List.find?] at h
        rw [show ((1, [recB]).1 == k) = false by simpa using hk] at h
        simp at h)

/-- C2 counterexample: a single neighbor list containing two records
that share description `B` produces two distinct store nodes (indices 1
and 2) with the same description — the claimed global dedup invariant is
violated within one call. -/
theorem updateTree_duplicate_counterexample :
    (descs (updateTreeFromHistory ⟨[], []⟩ [recA] [(1, [recB, recB2])] none).1.nodes
      = ["A", "B", "B"])
    ∧ ¬(descs (updateTreeFromHistory ⟨[], []⟩ [recA]
        [(1, [recB, recB2])] none).1.nodes).Nodup := by
  with_unfolding_all decide

/-- C6: the initial angle is not captured at most once.  On `c6nodes`
with two ticks of `updatePhysics` (wind `(0, -0.1)` then `(0, 0)`),
link `A → B` captures `atan2(0, 150) = 0` in the first all-resting tick;
in the second all-resting tick the JS truthiness test
`!link.initialAngle` sees the stored `0` as absent, and the (now
vertically displaced) geometry is recaptured, overwriting the angle with
a nonzero value — contradicting the code's own `!== undefined` use and
the "captured at most once, never overwritten" contract. -/
theorem linkAngle_recaptured :
    ((c6tick1.2.get? 1).map (·.initialAngle) = some (some 0))
    ∧ ((c6tick2.2.get? 1).map (·.initialAngle) = some (some 1))
    ∧ ((c6tick2.2.get? 1).map (·.initialAngle) ≠ some (some 0)) := by
  with_unfolding_all decide

/-- Second call of the Tree Builder on a store that already contains the
root's description and every description of the resolved neighbor list:
nothing is created and the store is returned unchanged. -/
theorem updateTree_noop (st : TreeState) (h0 : SimRec) (rest : List SimRec)
    (simRecords : List (Nat × List SimRec)) (active : Option SimRec)
    (hroot : h0.text ∈ descs st.nodes)
    (hcov : ∀ lst, safeGetSimilarRecords (resolveTarget (h0 :: rest) h0 active)
        simRecords = some lst → ∀ s ∈ lst, s.text ∈ descs st.nodes) :
    updateTreeFromHistory st (h0 :: rest) simRecords active = (st, []) := by
  unfold updateTreeFromHistory
  rw [mem_descs_iff] at hroot
  obtain ⟨rn, hrn, hdesc⟩ := hroot
  cases hfound : jsFindIdx (fun n => n.description == h0.text) st.nodes with
  | none =>
    exact absurd hfound (jsFindIdx_isSome _ _ rn hrn (by simp [hdesc]))
  | some i =>
    simp only [hfound]
    cases hsafe : safeGetSimilarRecords (resolveTarget (h0 :: rest) h0 active)
        simRecords with
    | none => rfl
    | some lst =>
      have hfil : lst.filter (fun s => !(st.nodes.any fun n => n.description == s.text))
          = [] := by
        rw [List.filter_eq_nil_iff]
        intro s hs
        have hmem := hcov lst hsafe s hs
        rw [mem_descs_iff] at hmem
        obtain ⟨n, hn, hd⟩ := hmem
        simp only [Bool.not_eq_true', Bool.not_eq_false]
        rw [List.any_eq_true]
        exact ⟨n, hn, by simp [hd]⟩
      simp only [hfil]
      rfl

/-- After a Tree-Builder call on a non-empty history, the output store
contains the first record's description and (when a neighbor list was
resolved) every description of that neighbor list. -/
theorem updateTree_covers (st : TreeState) (h0 : SimRec) (rest : List SimRec)
    (simRecords : List (Nat × List SimRec)) (active : Option SimRec) :
    h0.text ∈ descs (updateTreeFromHistory st (h0 :: rest) simRecords active).1.nodes
    ∧ (∀ lst, safeGetSimilarRecords (resolveTarget (h0 :: rest) h0 active) simRecords
          = some lst →
        ∀ s ∈ lst,
          s.text ∈ descs (updateTreeFromHistory st (h0 :: rest) simRecords active).1.nodes) := by
  unfold updateTreeFromHistory
  cases hfound : jsFindIdx (fun n => n.description == h0.text) st.nodes with
  | some i =>
    simp only [hfound]
    obtain ⟨rn, hrn, hp⟩ := jsFindIdx_eq_some _ _ _ hfound
    have hrmem : h0.text ∈ descs st.nodes := by
      rw [mem_descs_iff]
      exact ⟨rn, List.get?_mem hrn, by simpa using hp⟩
    have hplt : (match active with
        | some a =>
          match jsFindIdx (fun n => n.description == a.text) st.nodes with
          | some j => j
          | none => i
        | none => i) < st.nodes.length := by
      have hi : i < st.nodes.length := jsFindIdx_lt_length _ _ _ hfound
      cases active with
      | none => exact hi
      | some a =>
        cases hfa : jsFindIdx (fun n => n.description == a.text) st.nodes with
        | none => simp only [hfa]; exact hi
        | some j => simp only [hfa]; exact jsFindIdx_lt_length _ _ _ hfa
    cases hsafe : safeGetSimilarRecords (resolveTarget (h0 :: rest) h0 active)
        simRecords with
    | none =>
      refine ⟨hrmem, fun lst h => ?_⟩
      exact Option.noConfusion h
    | some lst =>
      constructor
      · exact attachSimilar_descs_mono _ _ _ _ _ _ _ _ hrmem
      · intro lst2 h s hs
        injection h with h
        subst h
        by_cases hf : s ∈ lst.filter fun s =>
            !(st.nodes.any fun n => n.description == s.text)
        · exact attachSimilar_covers _ _ _ _ _ _ _ hplt s hf
        · have hpred : ¬((!(st.nodes.any fun n => n.description == s.text)) = true) := by
            intro hp2
            exact hf (List.mem_filter.mpr ⟨hs, hp2⟩)
          simp only [Bool.not_eq_true', Bool.not_eq_false] at hpred
          rw [List.any_eq_true] at hpred
          obtain ⟨n, hn, hd⟩ := hpred
          refine attachSimilar_descs_mono _ _ _ _ _ _ _ _ ?_
          rw [mem_descs_iff]
          exact ⟨n, hn, by simpa using hd⟩
  | none =>
    simp only [hfound]
    have hrmem : h0.text ∈ descs (st.nodes ++ [mkNode ⟨0, 0⟩ h0.text h0.image none 0 h0.id]) := by
      rw [descs_append]
      refine List.mem_append_right _ ?_
      simp [descs, mkNode]
    have hplt : (match active with
        | some a =>
          match jsFindIdx (fun n => n.description == a.text)
              (st.nodes ++ [mkNode ⟨0, 0⟩ h0.text h0.image none 0 h0.id]) with
          | some j => j
          | none => st.nodes.length
        | none => st.nodes.length) <
        (st.nodes ++ [mkNode ⟨0, 0⟩ h0.text h0.image none 0 h0.id]).length := by
      have hlen : st.nodes.length <
          (st.nodes ++ [mkNode ⟨0, 0⟩ h0.text h0.image none 0 h0.id]).length := by
        simp
      cases active with
      | none => exact hlen
      | some a =>
        cases hfa : jsFindIdx (fun n => n.description == a.text)
            (st.nodes ++ [mkNode ⟨0, 0⟩ h0.text h0.image none 0 h0.id]) with
        | none => simp only [hfa]; exact hlen
        | some j => simp only [hfa]; exact jsFindIdx_lt_length _ _ _ hfa
    cases hsafe : safeGetSimilarRecords (resolveTarget (h0 :: rest) h0 active)
        simRecords with
    | none =>
      refine ⟨hrmem, fun lst h => ?_⟩
      exact Option.noConfusion h
    | some lst =>
      constructor
      · exact attachSimilar_descs_mono _ _ _ _ _ _ _ _ hrmem
      · intro lst2 h s hs
        injection h with h
        subst h
        by_cases hf : s ∈ lst.filter fun s =>
            !((st.nodes ++ [mkNode ⟨0, 0⟩ h0.text h0.image none 0 h0.id]).any
              fun n => n.description == s.text)
        · exact attachSimilar_covers _ _ _ _ _ _ _ hplt s hf
        · have hpred : ¬((!((st.nodes ++ [mkNode ⟨0, 0⟩ h0.text h0.image none 0 h0.id]).any
              fun n => n.description == s.text)) = true) := by
            intro hp2
            exact hf (List.mem_filter.mpr ⟨hs, hp2⟩)
          simp only [Bool.not_eq_true', Bool.not_eq_false] at hpred
          rw [List.any_eq_true] at hpred
          obtain ⟨n, hn, hd⟩ := hpred
          refine attachSimilar_descs_mono _ _ _ _ _ _ _ _ ?_
          rw [mem_descs_iff]
          exact ⟨n, hn, by simpa using hd⟩

/-- C7: the Tree Builder is idempotent — running `updateTreeFromHistory`
twice with identical inputs (any store, history, similarity map and
active node) leaves the store of the first call unchanged and returns an
empty list of newly created nodes from the second call (the JS function
returns `undefined` before creating anything only on an empty history,
also modelled as no new nodes). -/
theorem updateTreeFromHistory_idempotent (st : TreeState) (history : List SimRec)
    (simRecords : List (Nat × List SimRec)) (active : Option SimRec) :
    updateTreeFromHistory (updateTreeFromHistory st history simRecords active).1
        history simRecords active
      = ((updateTreeFromHistory st history simRecords active).1, []) := by
  cases history with
  | nil => rfl
  | cons h0 rest =>
    obtain ⟨hr, hc⟩ := updateTree_covers st h0 rest simRecords active
    exact updateTree_noop _ h0 rest simRecords active hr hc

end BMTree
